import Mathlib

/-!
Verification of the linux-debug-setup provisioning scripts.

The definitions below are a shallow embedding of the Python sources under
`src/scripts/`:

* `config.py`   — partition-plan validation (`RootfsConfig.parse`);
* `rootfs.py`   — the installation sequencer's `pre_install` phase
  (`partition_disk`, `format_disk`, `mount_disk`);
* `state.py`    — the persisted build-state record (`KernelMachine`);
* `kernel.py`   — the resumable build pipeline (`build_bzImage`,
  `prepare_source`, `configure_source`, `build_source`);
* `utils.py`    — the device-name helpers (`dev_partition_contains_root`,
  `mount_point_contains_efi`).

Python's stable `list.sort(key=f)` is modelled by `List.insertionSort`
with the relation `f a ≤ f b`; Mathlib's `insertionSort` is a stable sort,
so it computes the same list as any other stable sort by the same key.
Side-effecting code is modelled by explicit state passing; a raised Python
exception is an `Except.error` value that carries the state reached at the
point of the raise (file-system effects performed before the raise persist).
-/

/-! ### config.py : partition formats and raw input -/

/-- Embeds `PartitionFormat` (config.py lines 36-45): the two accepted
partition format strings "fat" and "ext4". -/
inductive PartitionFormat where
  | FAT
  | EXT4
deriving DecidableEq, Repr

/-- Embeds `PartitionFormat(...)` construction: Python's `Enum` lookup by
value, raising `ValueError` for an unrecognised string. -/
def parsePartitionFormat : String → Except String PartitionFormat
  | "fat" => .ok .FAT
  | "ext4" => .ok .EXT4
  | s => .error ("ValueError: " ++ s ++ " is not a valid PartitionFormat")

/-- Embeds `PartitionFormatConfig` (config.py lines 48-52). `size_gb` is an
integer as produced by Python's `int(...)`. -/
structure PartitionFormatConfig where
  format : PartitionFormat
  size_gb : Int
  mount_point : String
deriving DecidableEq, Repr

/-- One raw entry of the `partitions` list of the TOML configuration, as seen
by `RootfsConfig.parse` before validation. -/
structure RawPartition where
  format : String
  size_gb : Int
  mount_point : String
deriving DecidableEq, Repr

/-- Embeds `os.path.isabs` on POSIX: a path is absolute iff it starts with
the separator character. -/
def isAbs (s : String) : Bool :=
  match s.data with
  | [] => false
  | c :: _ => c = '/'

/-! ### config.py : the stable sorts

`parts_order_list.sort(key=lambda x: len(x[0].mount_point))` (config.py
line 105) and `conf_order_list.sort(key=lambda t: t[1])` (rootfs.py
line 246) are Python's stable in-place sorts; they are modelled by
`List.insertionSort` over the corresponding non-strict key comparisons. -/

/-- Key comparison of the sort at config.py line 105: by the character length
of the mount point. -/
def lenLe (a b : PartitionFormatConfig × Nat) : Prop :=
  a.1.mount_point.length ≤ b.1.mount_point.length

instance : DecidableRel lenLe := fun _ _ => Nat.decLe _ _

instance : IsTotal (PartitionFormatConfig × Nat) lenLe :=
  ⟨fun _ _ => Nat.le_total _ _⟩

instance : IsTrans (PartitionFormatConfig × Nat) lenLe :=
  ⟨fun _ _ _ => Nat.le_trans⟩

/-- Key comparison of the sort at rootfs.py line 246: by the assigned
partition number. -/
def numLe (a b : PartitionFormatConfig × Nat) : Prop :=
  a.2 ≤ b.2

instance : DecidableRel numLe := fun _ _ => Nat.decLe _ _

instance : IsTotal (PartitionFormatConfig × Nat) numLe :=
  ⟨fun _ _ => Nat.le_total _ _⟩

instance : IsTrans (PartitionFormatConfig × Nat) numLe :=
  ⟨fun _ _ _ => Nat.le_trans⟩

/-- Strict version of `numLe`, used to state that the partition numbers of a
list are strictly increasing. -/
def numLt (a b : PartitionFormatConfig × Nat) : Prop :=
  a.2 < b.2

instance : DecidableRel numLt := fun _ _ => Nat.decLt _ _

instance : IsAntisymm (PartitionFormatConfig × Nat) numLt :=
  ⟨fun _ _ h h' => absurd (Nat.lt_trans h h') (Nat.lt_irrefl _)⟩

/-- Embeds `[(c, i) for i, c in enumerate(partitions, start=1)]`
(config.py line 104): pair each element with its 1-based position. -/
def numberFrom (i : Nat) : List PartitionFormatConfig → List (PartitionFormatConfig × Nat)
  | [] => []
  | c :: cs => (c, i) :: numberFrom (i + 1) cs

/-! ### config.py : RootfsConfig.parse -/

/-- Embeds the validation loop of `RootfsConfig.parse` (config.py lines
79-102): validates each entry's format string and absolute mount point in
declaration order, raising on the first faulty entry, and returns the parsed
entries together with the final `root_count` and `efi_count`. -/
def parseLoop : List RawPartition → Except String (List PartitionFormatConfig × Nat × Nat)
  | [] => .ok ([], 0, 0)
  | p :: ps =>
    match parsePartitionFormat p.format with
    | .error e => .error e
    | .ok fmt =>
      if isAbs p.mount_point then
        match parseLoop ps with
        | .error e => .error e
        | .ok (rest, rc, ec) =>
          .ok (⟨fmt, p.size_gb, p.mount_point⟩ :: rest,
               rc + (if p.mount_point = "/" then 1 else 0),
               ec + (if fmt = .FAT then 1 else 0))
      else
        .error ("ValueError: Mount point " ++ p.mount_point ++ " is not an absolute path.")

/-- The parsed entry a valid raw partition maps to: used to state, for raw
lists whose formats are all valid, what `parseLoop` produces. -/
def toSpec (p : RawPartition) : PartitionFormatConfig :=
  ⟨if p.format = "fat" then .FAT else .EXT4, p.size_gb, p.mount_point⟩

/-- Embeds the partition handling of `RootfsConfig.parse` (config.py lines
78-119): run the validation loop, number the entries by declaration order,
stable-sort them by mount-point length, then check that there is exactly one
FAT partition and exactly one root mount point (in that order).  The
remaining `RootfsConfig` fields (iso urls, image format with its qcow2
fallback, root password, backup flag) are independent pass-throughs of other
configuration values and are not modelled. -/
def RootfsConfig.parse (raw : List RawPartition) : Except String (List (PartitionFormatConfig × Nat)) :=
  match parseLoop raw with
  | .error e => .error e
  | .ok (partitions, rc, ec) =>
    let parts_order_list := List.insertionSort lenLe (numberFrom 1 partitions)
    if ec ≠ 1 then
      .error "ValueError: There must be exactly one EFI partition."
    else if rc ≠ 1 then
      .error "ValueError: There must be exactly one mount point with '/'."
    else
      .ok parts_order_list

/-! ### rootfs.py : the pre_install phase -/

/-- Embeds the reordering effect of `pre_install.partition_disk` (rootfs.py
lines 231-251): `conf_order_list.sort(key=lambda t: t[1])` sorts the list
returned by `get_partitions_with_order()` in place by partition number.
Because `get_partitions_with_order()` returns the cached configuration list
itself, this mutation persists: the later `format_disk` and `mount_disk`
phases iterate over the re-sorted list. -/
def partition_disk_order (l : List (PartitionFormatConfig × Nat)) : List (PartitionFormatConfig × Nat) :=
  List.insertionSort numLe l

/-- The fdisk creation commands issued by `partition_disk`: one
(partition number, size) per entry, in iteration order. -/
def partition_disk_cmds (l : List (PartitionFormatConfig × Nat)) : List (Nat × Int) :=
  (partition_disk_order l).map (fun e => (e.2, e.1.size_gb))

/-- Embeds `pre_install.mount_disk` (rootfs.py lines 269-283): for each entry
of the (by now re-sorted) cached list, in iteration order, mount
`/dev/sda{i}` at `/mnt{mount_point}`.  Each emitted element is the pair
(partition number, mount point). -/
def mount_disk_targets (cached : List (PartitionFormatConfig × Nat)) : List (Nat × String) :=
  cached.map (fun e => (e.2, e.1.mount_point))

/-- The sequence of mount targets issued by `pre_install` for a parsed
configuration list: `partition_disk` runs first and re-sorts the cached list
in place by partition number, then `mount_disk` iterates over the mutated
list. -/
def pre_install_mount_targets (cfg : List (PartitionFormatConfig × Nat)) : List (Nat × String) :=
  mount_disk_targets (partition_disk_order cfg)

/-! ### spec-side path notions (used to state the mount-order properties) -/

/-- Number of path separators in a mount point (the spec's notion of path
depth). -/
def sepCount (s : String) : Nat :=
  s.data.count '/'

/-- The spec's "path-prefix parent": `p` is a parent mount point of `q` when
they differ and either `p` is the root or `q` extends `p` past a separator. -/
def pathPrefixParent (p q : String) : Bool :=
  p != q && (p == "/" || List.isPrefixOf (p.data ++ ['/']) q.data)

/-! ### utils.py : device-name helpers -/

/-- Embeds `QemuBootMode` (config.py lines 228-230). -/
inductive QemuBootMode where
  | UEFI
  | BIOS
deriving DecidableEq, Repr

/-- Embeds `dev_partition_contains_root` (utils.py lines 170-183): scan the
cached list for the entry mounted at "/" and derive its device node, using
the `vda` naming convention under UEFI and `sda` under BIOS; raise
`ValueError` when no root entry exists.  The boot mode, read from the global
configuration in Python, is passed explicitly. -/
def dev_partition_contains_root (l : List (PartitionFormatConfig × Nat)) (bm : QemuBootMode) : Except String String :=
  match l with
  | [] => .error "ValueError: No root partition found"
  | (c, i) :: rest =>
    if c.mount_point = "/" then
      match bm with
      | .UEFI => .ok ("/dev/vda" ++ toString i)
      | .BIOS => .ok ("/dev/sda" ++ toString i)
    else
      dev_partition_contains_root rest bm

/-- Embeds `mount_point_contains_efi` (utils.py lines 186-196): scan the
cached list for the first FAT entry and return its `sda` device node; raise
`ValueError` when no FAT entry exists. -/
def mount_point_contains_efi (l : List (PartitionFormatConfig × Nat)) : Except String String :=
  match l with
  | [] => .error "ValueError: No EFI partition found"
  | (c, i) :: rest =>
    if c.format = PartitionFormat.FAT then
      .ok ("/dev/sda" ++ toString i)
    else
      mount_point_contains_efi rest

/-- The device node used by the installer when mounting partition `i`
(rootfs.py line 280: `mount /dev/sda{i} /mnt{mount_point}`). -/
def installer_mount_device (i : Nat) : String :=
  "/dev/sda" ++ toString i

/-! ### state.py : the persisted build-state record -/

/-- Embeds `KernelState` (state.py lines 12-16). -/
inductive KernelState where
  | DEFAULT_NOT_INIT
  | SRC_CLONED
  | SRC_CONFIGURED
  | SRC_BUILT
deriving DecidableEq, Repr

/-- The `value` of each `KernelState` enum member. -/
def KernelState.value : KernelState → String
  | .DEFAULT_NOT_INIT => "default_not_init"
  | .SRC_CLONED => "src_cloned"
  | .SRC_CONFIGURED => "src_configured"
  | .SRC_BUILT => "src_built"

/-- Embeds `KernelState(...)` construction: Python's `Enum` lookup by value,
yielding `none` (a `ValueError`) for an unrecognised string. -/
def kernelStateOfValue (v : String) : Option KernelState :=
  if v = "default_not_init" then some .DEFAULT_NOT_INIT
  else if v = "src_cloned" then some .SRC_CLONED
  else if v = "src_configured" then some .SRC_CONFIGURED
  else if v = "src_built" then some .SRC_BUILT
  else none

/-- The possible contents of the state record file `kernel_state.json`, as
far as `get_state` distinguishes them: the file may be missing, may fail to
decode as JSON, may decode to a non-object, or may decode to an object with
string values. -/
inductive StateFileContent where
  | missing
  | undecodable
  | nonObject
  | obj (fields : List (String × String))
deriving DecidableEq, Repr

/-- Python dictionary lookup `data["state"]` on the decoded object, modelled
on an association list. -/
def lookupField : List (String × String) → String → Option String
  | [], _ => none
  | (k, v) :: rest, key => if k = key then some v else lookupField rest key

/-- Embeds `KernelMachine.get_state` (state.py lines 22-40).  A missing file
returns the default state; `json.JSONDecodeError` (undecodable content) and
`KeyError` (object without a "state" key) are caught and degrade to the
default state.  A decoded non-object raises `TypeError` at `data["state"]`,
and an unrecognised "state" value raises `ValueError` at `KernelState(...)`;
neither is in the caught exception tuple, so both propagate. -/
def KernelMachine.get_state : StateFileContent → Except String KernelState
  | .missing => .ok .DEFAULT_NOT_INIT
  | .undecodable => .ok .DEFAULT_NOT_INIT
  | .nonObject => .error "TypeError: indices must be integers"
  | .obj fields =>
    match lookupField fields "state" with
    | none => .ok .DEFAULT_NOT_INIT
    | some v =>
      match kernelStateOfValue v with
      | some s => .ok s
      | none => .error ("ValueError: " ++ v ++ " is not a valid KernelState")

/-- Embeds `KernelMachine.set_state` (state.py lines 42-53): write the JSON
record `\x7b"state": state.value\x7d` to the state file. -/
def KernelMachine.set_state (s : KernelState) : StateFileContent :=
  .obj [("state", s.value)]

/-! ### kernel.py : the resumable build pipeline

Each external tool invocation (`subprocess.run(..., check=True)`) is
abstracted by a boolean outcome supplied by a `KernelEnv`; a `false` outcome
is the tool exiting non-zero, which raises `CalledProcessError`.  The
observable machine state is `KernelSt`: whether the kernel source directory
exists and the content of the persisted state record.  Every invocation is
appended to a trace so that the order of the stages is provable.  An
exception is an `Except.error` carrying the state and trace at the raise. -/

/-- Outcome of every external tool invoked by kernel.py, in program order.
`overlay_ok` has one outcome per entry of the configure overlay
(`apply_custom_config` is called once per entry). -/
structure KernelEnv where
  git_init_ok : Bool
  git_remote_add_ok : Bool
  git_fetch_ok : Bool
  git_checkout_ok : Bool
  make_defconfig_ok : Bool
  overlay_ok : List Bool
  make_oldconfig_ok : Bool
  bear_make_ok : Bool
deriving DecidableEq, Repr

/-- The on-disk state observed by kernel.py: the kernel source directory and
the persisted state record. -/
structure KernelSt where
  src_dir_exists : Bool
  state_file : StateFileContent
deriving DecidableEq, Repr

/-- Result of running a piece of the pipeline: either the final state and
trace, or (for a propagating exception) the state, trace and message at the
raise. -/
abbrev KernelOut := Except (KernelSt × List String × String) (KernelSt × List String)

/-- Run one external tool: record the invocation and either continue or
raise `CalledProcessError` (modelled as an `ExternalToolError` message). -/
def runTool (name : String) (ok : Bool) (st : KernelSt) (tr : List String) : KernelOut :=
  if ok then .ok (st, tr ++ [name])
  else .error (st, tr ++ [name], "ExternalToolError: " ++ name)

/-- Embeds `shutil.rmtree(linux_src)`: deletes the source directory, raising
`FileNotFoundError` when it does not exist. -/
def rmtree_src (st : KernelSt) : Except String KernelSt :=
  if st.src_dir_exists then .ok { st with src_dir_exists := false }
  else .error "FileNotFoundError: rmtree"

/-- Embeds `build_source` (kernel.py lines 111-133): one `bear ... make`
invocation.  No state is persisted afterwards: kernel.py contains no
`set_state(SRC_BUILT)` call. -/
def build_source (env : KernelEnv) (st : KernelSt) (tr : List String) : KernelOut :=
  runTool "bear make" env.bear_make_ok st tr

/-- Embeds the overlay loop of `configure_source` (kernel.py lines 101-102):
one `apply_custom_config` invocation of the configuration script per overlay
entry, stopping at the first failure. -/
def apply_overlays : List Bool → KernelSt → List String → KernelOut
  | [], st, tr => .ok (st, tr)
  | ok :: rest, st, tr =>
    match runTool "config script" ok st tr with
    | .ok (st', tr') => apply_overlays rest st' tr'
    | .error e => .error e

/-- Embeds `configure_source` (kernel.py lines 95-108): `make defconfig`,
the overlay loop, `make oldconfig`; on success persist `SRC_CONFIGURED` and
cascade into `build_source`. -/
def configure_source (env : KernelEnv) (st : KernelSt) (tr : List String) : KernelOut :=
  match runTool "make defconfig" env.make_defconfig_ok st tr with
  | .error e => .error e
  | .ok (st, tr) =>
    match apply_overlays env.overlay_ok st tr with
    | .error e => .error e
    | .ok (st, tr) =>
      match runTool "make oldconfig" env.make_oldconfig_ok st tr with
      | .error e => .error e
      | .ok (st, tr) =>
        let st := { st with state_file := KernelMachine.set_state .SRC_CONFIGURED }
        build_source env st tr

/-- Embeds `prepare_source` (kernel.py lines 39-63).  The `try` block runs
`git init` (which creates the source directory) and `git remote add` only
when the directory does not exist; on any exception from the block the
directory is removed with `rmtree` and the exception is re-raised.  Then
`git fetch` and `git checkout` run; on success persist `SRC_CLONED` and
cascade into `configure_source`. -/
def prepare_source (env : KernelEnv) (st : KernelSt) (tr : List String) : KernelOut :=
  let tryBlock : KernelOut :=
    if st.src_dir_exists then .ok (st, tr)
    else
      match runTool "git init" env.git_init_ok st tr with
      | .error e => .error e
      | .ok (st, tr) =>
        runTool "git remote add" env.git_remote_add_ok { st with src_dir_exists := true } tr
  match tryBlock with
  | .error (st, tr, e) =>
    (match rmtree_src st with
     | .ok st' => .error (st', tr, e)
     | .error e2 => .error (st, tr, e2))
  | .ok (st, tr) =>
    match runTool "git fetch" env.git_fetch_ok st tr with
    | .error e => .error e
    | .ok (st, tr) =>
      match runTool "git checkout" env.git_checkout_ok st tr with
      | .error e => .error e
      | .ok (st, tr) =>
        let st := { st with state_file := KernelMachine.set_state .SRC_CLONED }
        configure_source env st tr

/-- Embeds `build_bzImage` (kernel.py lines 24-36), the build-pipeline
dispatch: load the persisted state (a raise from `get_state` propagates) and
run the stage matching it; the Python `match` has no case for `SRC_BUILT`,
so that state dispatches nothing. -/
def build_bzImage (env : KernelEnv) (st : KernelSt) : KernelOut :=
  match KernelMachine.get_state st.state_file with
  | .error e => .error (st, [], e)
  | .ok s =>
    match s with
    | .DEFAULT_NOT_INIT => prepare_source env st []
    | .SRC_CLONED => configure_source env st []
    | .SRC_CONFIGURED => build_source env st []
    | .SRC_BUILT => .ok (st, [])

/-! ## Helper lemmas -/

/-- A successful `parseLoop` returns counts equal to the number of root
mount points and of FAT entries among the parsed specs, and every parsed
spec has an absolute mount point. -/
theorem parseLoop_ok_facts :
    ∀ (raw : List RawPartition) (specs : List PartitionFormatConfig) (rc ec : Nat),
      parseLoop raw = .ok (specs, rc, ec) →
      rc = (specs.filter (fun c => c.mount_point == "/")).length ∧
      ec = (specs.filter (fun c => c.format == PartitionFormat.FAT)).length ∧
      ∀ c ∈ specs, isAbs c.mount_point = true := by
  intro raw
  induction raw with
  | nil =>
    intro specs rc ec h
    simp only [parseLoop] at h
    injection h with h
    injection h with h1 h
    injection h with h2 h3
    subst h1; subst h2; subst h3
    simp
  | cons p ps ih =>
    intro specs rc ec h
    cases hpf : parsePartitionFormat p.format with
    | error e => simp [parseLoop, hpf] at h
    | ok fmt =>
      cases hab : isAbs p.mount_point with
      | false => simp [parseLoop, hpf, hab] at h
      | true =>
        cases hpl : parseLoop ps with
        | error e => simp [parseLoop, hpf, hab, hpl] at h
        | ok tri =>
          obtain ⟨rest, rc', ec'⟩ := tri
          simp only [parseLoop, hpf, hab, hpl, eq_self_iff_true, if_true,
            Except.ok.injEq, Prod.mk.injEq] at h
          obtain ⟨h1, h2, h3⟩ := h
          obtain ⟨hrc, hec, habs⟩ := ih rest rc' ec' hpl
          subst h1
          refine ⟨?_, ?_, ?_⟩
          · rw [← h2]
            by_cases hr : p.mount_point = "/" <;>
              simp [List.filter_cons, hr, hrc, Nat.add_comm]
          · rw [← h3]
            by_cases hf : fmt = PartitionFormat.FAT <;>
              simp [List.filter_cons, hf, hec, Nat.add_comm]
          · intro c hc
            rcases List.mem_cons.mp hc with hceq | hcmem
            · subst hceq; simpa using hab
            · exact habs c hcmem

/-- On a raw list whose entries all have a valid format string and an
absolute mount point, `parseLoop` succeeds, parses the entries in
declaration order, and counts the root and FAT occurrences. -/
theorem parseLoop_of_valid :
    ∀ raw : List RawPartition,
      (∀ p ∈ raw, (p.format = "fat" ∨ p.format = "ext4") ∧ isAbs p.mount_point = true) →
      parseLoop raw = .ok (raw.map toSpec,
        (raw.filter (fun p => p.mount_point == "/")).length,
        (raw.filter (fun p => p.format == "fat")).length) := by
  intro raw
  induction raw with
  | nil => intro _; simp [parseLoop]
  | cons p ps ih =>
    intro hv
    obtain ⟨hfmt, habs⟩ := hv p (List.mem_cons_self p ps)
    have hrest := ih (fun q hq => hv q (List.mem_cons_of_mem p hq))
    rcases hfmt with hf | hf
    · have hpf : parsePartitionFormat p.format = .ok PartitionFormat.FAT := by
        rw [hf]; rfl
      simp only [parseLoop, hpf, habs, if_true, hrest]
      refine congrArg Except.ok ?_
      refine Prod.mk.injEq .. ▸ ⟨?_, ?_⟩
      · simp [toSpec, hf]
      · refine Prod.mk.injEq .. ▸ ⟨?_, ?_⟩
        · by_cases hr : p.mount_point = "/" <;>
            simp [hr, List.filter_cons, Nat.add_comm]
        · simp [List.filter_cons, hf, Nat.add_comm]
    · have hpf : parsePartitionFormat p.format = .ok PartitionFormat.EXT4 := by
        rw [hf]; rfl
      have hne : ¬ (p.format = "fat") := by
        rw [hf]; intro hcon; exact absurd hcon (by decide)
      simp only [parseLoop, hpf, habs, if_true, hrest]
      refine congrArg Except.ok ?_
      refine Prod.mk.injEq .. ▸ ⟨?_, ?_⟩
      · simp [toSpec, hne]
      · refine Prod.mk.injEq .. ▸ ⟨?_, ?_⟩
        · by_cases hr : p.mount_point = "/" <;>
            simp [hr, List.filter_cons, Nat.add_comm]
        · simp [List.filter_cons, hne, Nat.add_comm]

/-- A successful `RootfsConfig.parse` means the loop succeeded with both
counts equal to one, and the result is the numbered spec list stable-sorted
by mount-point length. -/
theorem parse_ok_elim (raw : List RawPartition) (l : List (PartitionFormatConfig × Nat))
    (h : RootfsConfig.parse raw = .ok l) :
    ∃ specs, parseLoop raw = .ok (specs, 1, 1) ∧
      l = List.insertionSort lenLe (numberFrom 1 specs) := by
  unfold RootfsConfig.parse at h
  split at h
  · exact absurd h (by simp)
  · rename_i partitions rc ec heq
    split at h
    · exact absurd h (by simp)
    · split at h
      · exact absurd h (by simp)
      · rename_i hec hrc
        simp only [ne_eq, Decidable.not_not] at hec hrc
        subst hec; subst hrc
        simp only [Except.ok.injEq] at h
        exact ⟨partitions, heq, h.symm⟩

/-- Elements of `numberFrom i l` carry numbers at least `i`. -/
theorem numberFrom_snd_ge :
    ∀ (l : List PartitionFormatConfig) (i : Nat) (e : PartitionFormatConfig × Nat),
      e ∈ numberFrom i l → i ≤ e.2 := by
  intro l
  induction l with
  | nil => intro i e h; simp [numberFrom] at h
  | cons c cs ih =>
    intro i e h
    rcases List.mem_cons.mp h with he | he
    · subst he; exact Nat.le_refl i
    · exact Nat.le_of_succ_le (ih (i + 1) e he)

/-- The numbers assigned by `numberFrom` are strictly increasing along the
list. -/
theorem numberFrom_sorted :
    ∀ (l : List PartitionFormatConfig) (i : Nat), List.Sorted numLt (numberFrom i l) := by
  intro l
  induction l with
  | nil => intro i; simp [numberFrom, List.Sorted]
  | cons c cs ih =>
    intro i
    refine List.Pairwise.cons ?_ (ih (i + 1))
    intro e he
    exact Nat.lt_of_lt_of_le (Nat.lt_succ_self i) (numberFrom_snd_ge cs (i + 1) e he)

/-- The first components of `numberFrom i l` are the elements of `l`. -/
theorem numberFrom_fst :
    ∀ (l : List PartitionFormatConfig) (i : Nat) (c : PartitionFormatConfig) (n : Nat),
      (c, n) ∈ numberFrom i l → c ∈ l := by
  intro l
  induction l with
  | nil => intro i c n h; simp [numberFrom] at h
  | cons d ds ih =>
    intro i c n h
    rcases List.mem_cons.mp h with he | he
    · exact List.mem_cons.mpr (Or.inl (congrArg Prod.fst he))
    · exact List.mem_cons.mpr (Or.inr (ih (i + 1) c n he))

/-- Every element of `l` appears, with some number, in `numberFrom i l`. -/
theorem mem_numberFrom_of_mem :
    ∀ (l : List PartitionFormatConfig) (i : Nat) (c : PartitionFormatConfig),
      c ∈ l → ∃ n, (c, n) ∈ numberFrom i l := by
  intro l
  induction l with
  | nil => intro i c h; simp at h
  | cons d ds ih =>
    intro i c h
    rcases List.mem_cons.mp h with he | he
    · subst he; exact ⟨i, List.mem_cons_self _ _⟩
    · obtain ⟨n, hn⟩ := ih (i + 1) c he
      exact ⟨n, List.mem_cons_of_mem _ hn⟩

/-- The numbers of `numberFrom i l`, in order, are `i, i+1, ...`. -/
theorem numberFrom_map_snd :
    ∀ (l : List PartitionFormatConfig) (i : Nat),
      (numberFrom i l).map Prod.snd = List.range' i l.length := by
  intro l
  induction l with
  | nil => intro i; simp [numberFrom]
  | cons c cs ih => intro i; simp [numberFrom, List.range', ih]

/-- A list sorted by non-strict partition number whose numbers are distinct
is sorted by strict partition number. -/
theorem sorted_numLt_of_numLe_nodup (l : List (PartitionFormatConfig × Nat))
    (h : List.Sorted numLe l) (hn : (l.map Prod.snd).Nodup) : List.Sorted numLt l := by
  have hpw : l.Pairwise (fun a b => a.2 ≠ b.2) := (List.pairwise_map).mp hn
  exact (h.and hpw).imp (fun hab => Nat.lt_of_le_of_ne hab.1 hab.2)

/-- Re-sorting any stable permutation of a `numberFrom` list by partition
number recovers the original `numberFrom` list: this is what
`partition_disk` does to the length-sorted cached list. -/
theorem partition_disk_order_restores (specs : List PartitionFormatConfig) :
    partition_disk_order (List.insertionSort lenLe (numberFrom 1 specs)) =
      numberFrom 1 specs := by
  have hperm : List.Perm (partition_disk_order (List.insertionSort lenLe (numberFrom 1 specs)))
      (numberFrom 1 specs) :=
    (List.perm_insertionSort numLe _).trans (List.perm_insertionSort lenLe _)
  have hsortedX : List.Sorted numLt (numberFrom 1 specs) := numberFrom_sorted specs 1
  have hnodupX : ((numberFrom 1 specs).map Prod.snd).Nodup := by
    exact (List.pairwise_map).mpr (hsortedX.imp (fun hab => Nat.ne_of_lt hab))
  have hnodupL : ((partition_disk_order (List.insertionSort lenLe (numberFrom 1 specs))).map
      Prod.snd).Nodup :=
    ((hperm.map Prod.snd).nodup_iff).mpr hnodupX
  have hsortedL : List.Sorted numLt
      (partition_disk_order (List.insertionSort lenLe (numberFrom 1 specs))) :=
    sorted_numLt_of_numLe_nodup _ (List.sorted_insertionSort numLe _) hnodupL
  exact List.eq_of_perm_of_sorted hperm hsortedL hsortedX

/-- The character length of a string is the length of its character list. -/
theorem string_length_data (s : String) : s.length = s.data.length := rfl

/-- A character-list that is a list-wise beginning of another is no longer
than it. -/
theorem isPrefixOf_le_length :
    ∀ (l1 l2 : List Char), l1.isPrefixOf l2 = true → l1.length ≤ l2.length := by
  intro l1
  induction l1 with
  | nil => intro l2 _; exact Nat.zero_le _
  | cons a as ih =>
    intro l2 h
    cases l2 with
    | nil => simp [List.isPrefixOf] at h
    | cons b bs =>
      simp only [List.isPrefixOf, Bool.and_eq_true] at h
      exact Nat.succ_le_succ (ih bs h.2)

/-- An absolute mount point other than "/" has at least two characters. -/
theorem two_le_length_of_abs_ne_root (s : String) (ha : isAbs s = true) (hne : s ≠ "/") :
    2 ≤ s.length := by
  obtain ⟨d⟩ := s
  cases d with
  | nil => simp [isAbs] at ha
  | cons c rest =>
    have hc : c = '/' := by simpa [isAbs] using ha
    cases rest with
    | nil =>
      subst hc
      exact absurd (by decide : String.mk ['/'] = "/") hne
    | cons c2 rest2 =>
      simp only [string_length_data, List.length_cons]
      omega

/-- A path-prefix parent of an absolute mount point is strictly shorter. -/
theorem length_lt_of_pathPrefixParent (p q : String) (hq : isAbs q = true)
    (h : pathPrefixParent p q = true) : p.length < q.length := by
  simp only [pathPrefixParent, Bool.and_eq_true, Bool.or_eq_true, bne_iff_ne, ne_eq,
    beq_iff_eq] at h
  obtain ⟨hne, hcase⟩ := h
  rcases hcase with hroot | hpre
  · subst hroot
    have hqne : q ≠ "/" := fun hcon => hne hcon.symm
    have := two_le_length_of_abs_ne_root q hq hqne
    have hp1 : ("/" : String).length = 1 := by decide
    omega
  · have := isPrefixOf_le_length _ _ hpre
    simp only [List.length_append, List.length_cons, List.length_nil] at this
    rw [string_length_data, string_length_data]
    omega

/-- The root-device helper succeeds on any list containing an entry mounted
at "/". -/
theorem dev_root_ok_of_mem :
    ∀ (l : List (PartitionFormatConfig × Nat)) (bm : QemuBootMode),
      (∃ c n, (c, n) ∈ l ∧ c.mount_point = "/") →
      ∃ d, dev_partition_contains_root l bm = .ok d := by
  intro l
  induction l with
  | nil => intro bm h; obtain ⟨c, n, hmem, _⟩ := h; simp at hmem
  | cons e rest ih =>
    intro bm h
    obtain ⟨c, n, hmem, hroot⟩ := h
    obtain ⟨e1, e2⟩ := e
    by_cases he : e1.mount_point = "/"
    · cases bm <;> simp [dev_partition_contains_root, he]
    · have hmem' : (c, n) ∈ rest := by
        rcases List.mem_cons.mp hmem with heq | hm
        · injection heq with hc hn
          subst hc
          exact absurd hroot he
        · exact hm
      obtain ⟨d, hd⟩ := ih bm ⟨c, n, hmem', hroot⟩
      exact ⟨d, by simp [dev_partition_contains_root, he, hd]⟩

/-- The EFI-device helper succeeds on any list containing a FAT entry. -/
theorem efi_ok_of_mem :
    ∀ l : List (PartitionFormatConfig × Nat),
      (∃ c n, (c, n) ∈ l ∧ c.format = PartitionFormat.FAT) →
      ∃ d, mount_point_contains_efi l = .ok d := by
  intro l
  induction l with
  | nil => intro h; obtain ⟨c, n, hmem, _⟩ := h; simp at hmem
  | cons e rest ih =>
    intro h
    obtain ⟨c, n, hmem, hfat⟩ := h
    obtain ⟨e1, e2⟩ := e
    by_cases he : e1.format = PartitionFormat.FAT
    · exact ⟨"/dev/sda" ++ toString e2, by simp [mount_point_contains_efi, he]⟩
    · have hmem' : (c, n) ∈ rest := by
        rcases List.mem_cons.mp hmem with heq | hm
        · injection heq with hc hn
          subst hc
          exact absurd hfat he
        · exact hm
      obtain ⟨d, hd⟩ := ih ⟨c, n, hmem', hfat⟩
      exact ⟨d, by simp [mount_point_contains_efi, he, hd]⟩

/-- A successful parse yields a list containing an entry mounted at "/",
an entry with a FAT format, and only absolute mount points. -/
theorem parse_ok_mem_facts (raw : List RawPartition) (l : List (PartitionFormatConfig × Nat))
    (h : RootfsConfig.parse raw = .ok l) :
    (∃ c n, (c, n) ∈ l ∧ c.mount_point = "/") ∧
    (∃ c n, (c, n) ∈ l ∧ c.format = PartitionFormat.FAT) ∧
    (∀ e ∈ l, isAbs e.1.mount_point = true) := by
  obtain ⟨specs, hloop, hl⟩ := parse_ok_elim raw l h
  obtain ⟨hrc, hec, habs⟩ := parseLoop_ok_facts raw specs 1 1 hloop
  have hmem_iff : ∀ e, e ∈ l ↔ e ∈ numberFrom 1 specs := by
    intro e
    rw [hl]
    exact (List.perm_insertionSort lenLe (numberFrom 1 specs)).mem_iff
  refine ⟨?_, ?_, ?_⟩
  · have hpos : 0 < (specs.filter (fun c => c.mount_point == "/")).length := by omega
    obtain ⟨c, hc⟩ := List.exists_mem_of_length_pos hpos
    obtain ⟨hcs, hcr⟩ := List.mem_filter.mp hc
    obtain ⟨n, hn⟩ := mem_numberFrom_of_mem specs 1 c hcs
    exact ⟨c, n, (hmem_iff (c, n)).mpr hn, by simpa using hcr⟩
  · have hpos : 0 < (specs.filter (fun c => c.format == PartitionFormat.FAT)).length := by
      omega
    obtain ⟨c, hc⟩ := List.exists_mem_of_length_pos hpos
    obtain ⟨hcs, hcr⟩ := List.mem_filter.mp hc
    obtain ⟨n, hn⟩ := mem_numberFrom_of_mem specs 1 c hcs
    exact ⟨c, n, (hmem_iff (c, n)).mpr hn, by simpa using hcr⟩
  · intro e he
    obtain ⟨e1, e2⟩ := e
    exact habs e1 (numberFrom_fst specs 1 e1 e2 ((hmem_iff (e1, e2)).mp he))

/-! ## Claim theorems -/

/-- Claim C1 (code bug): on a fresh state directory (no state record) with
every external tool succeeding, a single `build_bzImage` dispatch runs the
clone commands, then the configure commands, then the build command, in that
order — but the state it leaves persisted is `SRC_CONFIGURED`, never
`SRC_BUILT`: kernel.py contains no `set_state(SRC_BUILT)`, so the claimed
"persisted state is SRC_BUILT iff all three stages succeed" fails in the
all-success case. -/
theorem dispatch_from_fresh_runs_stages_in_order_but_persists_src_configured :
    build_bzImage ⟨true, true, true, true, true, [true], true, true⟩ ⟨false, .missing⟩ =
      .ok (⟨true, KernelMachine.set_state .SRC_CONFIGURED⟩,
        ["git init", "git remote add", "git fetch", "git checkout",
         "make defconfig", "config script", "make oldconfig", "bear make"]) ∧
    KernelMachine.get_state (KernelMachine.set_state .SRC_CONFIGURED) =
      .ok .SRC_CONFIGURED ∧
    KernelMachine.get_state (KernelMachine.set_state .SRC_CONFIGURED) ≠
      .ok .SRC_BUILT := by
  refine ⟨rfl, rfl, fun hcon => KernelState.noConfusion (Except.ok.inj hcon)⟩

/-- Claim C2 (code bug): on the valid plan
`[ext4 5 "/home/user", ext4 20 "/", fat 1 "/efi"]` the mount phase issues its
mounts in the order `/home/user`, `/`, `/efi`: `partition_disk` re-sorts the
cached configuration list in place by partition number, so `mount_disk`
iterates in declaration order, mounting the child `/home/user` before its
path-prefix parent `/` — not in ascending path depth as claimed. -/
theorem pre_install_mounts_child_before_parent :
    RootfsConfig.parse
        [⟨"ext4", 5, "/home/user"⟩, ⟨"ext4", 20, "/"⟩, ⟨"fat", 1, "/efi"⟩] =
      .ok [(⟨PartitionFormat.EXT4, 20, "/"⟩, 2), (⟨PartitionFormat.FAT, 1, "/efi"⟩, 3),
           (⟨PartitionFormat.EXT4, 5, "/home/user"⟩, 1)] ∧
    (pre_install_mount_targets
        [(⟨PartitionFormat.EXT4, 20, "/"⟩, 2), (⟨PartitionFormat.FAT, 1, "/efi"⟩, 3),
         (⟨PartitionFormat.EXT4, 5, "/home/user"⟩, 1)]).map Prod.snd =
      ["/home/user", "/", "/efi"] ∧
    pathPrefixParent "/" "/home/user" = true ∧
    ¬ List.Sorted (fun a b => a ≤ b)
        ((["/home/user", "/", "/efi"] : List String).map sepCount) := by
  refine ⟨rfl, rfl, by decide, by decide⟩

/-- Claim C3 counterexample: on `[ext4 20 "/"]` — exactly one root mount and
zero FAT partitions — `parse` fails with the EFI-count error even though no
boot mode is involved at all: `RootfsConfig.parse` takes no boot mode and
applies the FAT-count check unconditionally, so in BIOS mode the FAT count
is constrained, contrary to the claim. -/
theorem parse_efi_check_applies_without_uefi :
    ([⟨"ext4", 20, "/"⟩] : List RawPartition).filter (fun p => p.mount_point == "/") =
      [⟨"ext4", 20, "/"⟩] ∧
    RootfsConfig.parse [⟨"ext4", 20, "/"⟩] =
      .error "ValueError: There must be exactly one EFI partition." := by
  refine ⟨rfl, rfl⟩

/-- Claim C3 (amended): for every raw partition list whose entries have valid
format strings and absolute mount points, `parse` fails with a configuration
error exactly when the number of FAT-formatted specs is not one or the
number of specs mounted at "/" is not one — the FAT constraint applies
regardless of boot mode. -/
theorem parse_error_iff_bad_counts (raw : List RawPartition)
    (hv : ∀ p ∈ raw, (p.format = "fat" ∨ p.format = "ext4") ∧ isAbs p.mount_point = true) :
    (∃ e, RootfsConfig.parse raw = .error e) ↔
      ((raw.filter (fun p => p.format == "fat")).length ≠ 1 ∨
       (raw.filter (fun p => p.mount_point == "/")).length ≠ 1) := by
  have hloop := parseLoop_of_valid raw hv
  unfold RootfsConfig.parse
  rw [hloop]
  by_cases hfat : (raw.filter (fun p => p.format == "fat")).length = 1 <;>
    by_cases hroot : (raw.filter (fun p => p.mount_point == "/")).length = 1 <;>
      simp [hfat, hroot]

theorem parse_error_iff_bad_counts_witness :
    ∃ e, RootfsConfig.parse [⟨"fat", 1, "/a"⟩, ⟨"fat", 1, "/"⟩] = .error e :=
  (parse_error_iff_bad_counts [⟨"fat", 1, "/a"⟩, ⟨"fat", 1, "/"⟩] (by decide)).mpr
    (by decide)

/-- Claim C4 counterexample: a record that decodes to an object whose
"state" value is not one of the four states makes `get_state` raise
`ValueError` (the caught tuple covers only `FileNotFoundError`,
`JSONDecodeError` and `KeyError`), contradicting "never raises for any
malformed record". -/
theorem get_state_raises_on_unrecognized_value :
    KernelMachine.get_state (.obj [("state", "bogus")]) =
      .error "ValueError: bogus is not a valid KernelState" := rfl

/-- Claim C4 (amended): `get_state` returns NOT_INIT, without raising, when
the record is missing, when its content fails to decode, and when it decodes
to an object without a "state" key; it raises when the content decodes to a
non-object or when the "state" value is not a recognised state. -/
theorem get_state_default_on_missing_undecodable_or_keyless (c : StateFileContent) :
    ((c = .missing ∨ c = .undecodable ∨
        (∃ fields, c = .obj fields ∧ lookupField fields "state" = none)) →
      KernelMachine.get_state c = .ok .DEFAULT_NOT_INIT) ∧
    ((c = .nonObject ∨
        (∃ fields v, c = .obj fields ∧ lookupField fields "state" = some v ∧
          kernelStateOfValue v = none)) →
      ∃ e, KernelMachine.get_state c = .error e) := by
  constructor
  · intro h
    rcases h with h | h | ⟨fields, hc, hl⟩
    · subst h; rfl
    · subst h; rfl
    · subst hc; simp [KernelMachine.get_state, hl]
  · intro h
    rcases h with h | ⟨fields, v, hc, hl, hv⟩
    · subst h; exact ⟨_, rfl⟩
    · subst hc
      refine ⟨"ValueError: " ++ v ++ " is not a valid KernelState", ?_⟩
      simp [KernelMachine.get_state, hl, hv]

theorem get_state_default_on_missing_undecodable_or_keyless_witness :
    KernelMachine.get_state .missing = .ok .DEFAULT_NOT_INIT :=
  (get_state_default_on_missing_undecodable_or_keyless .missing).1 (Or.inl rfl)

/-- Claim C5 counterexample: on the valid plan
`[ext4 1 "/", fat 1 "/averylongname", ext4 1 "/a/b"]` the computed order is
`/`, `/a/b`, `/averylongname` — sorted by string length, with separator
counts 1, 2, 1 — so it is not a sort by ascending path depth (separator
count), which would place `/averylongname` before `/a/b`. -/
theorem mount_order_not_sorted_by_sep_count :
    RootfsConfig.parse
        [⟨"ext4", 1, "/"⟩, ⟨"fat", 1, "/averylongname"⟩, ⟨"ext4", 1, "/a/b"⟩] =
      .ok [(⟨PartitionFormat.EXT4, 1, "/"⟩, 1), (⟨PartitionFormat.EXT4, 1, "/a/b"⟩, 3),
           (⟨PartitionFormat.FAT, 1, "/averylongname"⟩, 2)] ∧
    ¬ List.Sorted (fun a b => a ≤ b)
        (([(⟨PartitionFormat.EXT4, 1, "/"⟩, 1), (⟨PartitionFormat.EXT4, 1, "/a/b"⟩, 3),
           (⟨PartitionFormat.FAT, 1, "/averylongname"⟩, 2)] :
            List (PartitionFormatConfig × Nat)).map
          (fun e => sepCount e.1.mount_point)) := by
  refine ⟨rfl, by decide⟩

/-- Claim C5 (amended): for every successfully parsed partition list, the
computed mount order is the stable sort of the declared numbered specs by
ascending mount-point string length (not separator count); consequently "/"
comes first and no mount point precedes a path-prefix parent. -/
theorem mount_order_sorted_by_length_root_first_parents_first
    (raw : List RawPartition) (l : List (PartitionFormatConfig × Nat))
    (h : RootfsConfig.parse raw = .ok l) :
    (∃ specs, parseLoop raw = .ok (specs, 1, 1) ∧
        l = List.insertionSort lenLe (numberFrom 1 specs)) ∧
    (∃ e rest, l = e :: rest ∧ e.1.mount_point = "/") ∧
    (∀ i j : Fin l.length, i < j →
        pathPrefixParent ((l.get j).1.mount_point) ((l.get i).1.mount_point) = false) := by
  obtain ⟨specs, hloop, hl⟩ := parse_ok_elim raw l h
  obtain ⟨hrootm, _, habs⟩ := parse_ok_mem_facts raw l h
  have hsorted : List.Sorted lenLe l := by
    rw [hl]; exact List.sorted_insertionSort lenLe _
  refine ⟨⟨specs, hloop, hl⟩, ?_, ?_⟩
  · obtain ⟨c, n, hmem, hcroot⟩ := hrootm
    cases hl2 : l with
    | nil => rw [hl2] at hmem; simp at hmem
    | cons e rest =>
      refine ⟨e, rest, rfl, ?_⟩
      by_cases he : e.1.mount_point = "/"
      · exact he
      · exfalso
        have habse : isAbs e.1.mount_point = true := by
          apply habs; rw [hl2]; exact List.mem_cons_self e rest
        have h2 : 2 ≤ e.1.mount_point.length :=
          two_le_length_of_abs_ne_root _ habse he
        rw [hl2] at hmem hsorted
        have hcr : (c, n) ∈ rest := by
          rcases List.mem_cons.mp hmem with heq | hm
          · exfalso
            apply he
            rw [← heq]
            exact hcroot
          · exact hm
        have hle : lenLe e (c, n) := List.rel_of_sorted_cons hsorted _ hcr
        have hclen : c.mount_point.length = 1 := by rw [hcroot]; decide
        unfold lenLe at hle
        simp only [hclen] at hle
        omega
  · intro i j hij
    cases hcase : pathPrefixParent ((l.get j).1.mount_point) ((l.get i).1.mount_point) with
    | false => rfl
    | true =>
      exfalso
      have habsi : isAbs ((l.get i).1.mount_point) = true := habs _ (l.get_mem i.1 i.2)
      have hlt := length_lt_of_pathPrefixParent _ _ habsi hcase
      have hle : lenLe (l.get i) (l.get j) := hsorted.rel_get_of_lt hij
      unfold lenLe at hle
      omega

theorem mount_order_sorted_by_length_root_first_parents_first_witness :
    ∃ e rest, ([(⟨PartitionFormat.EXT4, 20, "/"⟩, 2), (⟨PartitionFormat.FAT, 1, "/efi"⟩, 1)] :
        List (PartitionFormatConfig × Nat)) = e :: rest ∧ e.1.mount_point = "/" :=
  (mount_order_sorted_by_length_root_first_parents_first
    [⟨"fat", 1, "/efi"⟩, ⟨"ext4", 20, "/"⟩]
    [(⟨PartitionFormat.EXT4, 20, "/"⟩, 2), (⟨PartitionFormat.FAT, 1, "/efi"⟩, 1)]
    (by rfl)).2.1

/-- Claim C6 counterexample: on `[ext4 20 "/", ext4 5 "/home"]` — exactly one
root mount, zero FAT partitions, no UEFI involvement since `parse` never
consults a boot mode — the claim predicts success, but `parse` raises the
EFI-count error. -/
theorem parse_fails_without_fat_despite_unique_root :
    ([⟨"ext4", 20, "/"⟩, ⟨"ext4", 5, "/home"⟩] : List RawPartition).filter
        (fun p => p.mount_point == "/") = [⟨"ext4", 20, "/"⟩] ∧
    RootfsConfig.parse [⟨"ext4", 20, "/"⟩, ⟨"ext4", 5, "/home"⟩] =
      .error "ValueError: There must be exactly one EFI partition." := by
  refine ⟨rfl, rfl⟩

/-- Claim C6 (amended): for every raw partition list with valid formats,
absolute mount points, exactly one root mount and exactly one FAT partition
(regardless of boot mode), `parse` succeeds; the list `partition_disk`
iterates when creating partitions is exactly the declared specs numbered
1..N in declaration order. -/
theorem parse_success_assigns_declaration_numbers (raw : List RawPartition)
    (hv : ∀ p ∈ raw, (p.format = "fat" ∨ p.format = "ext4") ∧ isAbs p.mount_point = true)
    (hroot : (raw.filter (fun p => p.mount_point == "/")).length = 1)
    (hfat : (raw.filter (fun p => p.format == "fat")).length = 1) :
    ∃ l, RootfsConfig.parse raw = .ok l ∧
      partition_disk_order l = numberFrom 1 (raw.map toSpec) ∧
      (numberFrom 1 (raw.map toSpec)).map Prod.snd = List.range' 1 raw.length := by
  have hloop := parseLoop_of_valid raw hv
  refine ⟨List.insertionSort lenLe (numberFrom 1 (raw.map toSpec)), ?_, ?_, ?_⟩
  · unfold RootfsConfig.parse
    rw [hloop]
    simp [hroot, hfat]
  · exact partition_disk_order_restores (raw.map toSpec)
  · rw [numberFrom_map_snd, List.length_map]

theorem parse_success_assigns_declaration_numbers_witness :
    ∃ l, RootfsConfig.parse [⟨"fat", 1, "/boot/efi"⟩, ⟨"ext4", 30, "/"⟩] = .ok l ∧
      partition_disk_order l =
        numberFrom 1 (([⟨"fat", 1, "/boot/efi"⟩, ⟨"ext4", 30, "/"⟩] :
          List RawPartition).map toSpec) ∧
      (numberFrom 1 (([⟨"fat", 1, "/boot/efi"⟩, ⟨"ext4", 30, "/"⟩] :
          List RawPartition).map toSpec)).map Prod.snd =
        List.range' 1 ([⟨"fat", 1, "/boot/efi"⟩, ⟨"ext4", 30, "/"⟩] :
          List RawPartition).length :=
  parse_success_assigns_declaration_numbers
    [⟨"fat", 1, "/boot/efi"⟩, ⟨"ext4", 30, "/"⟩] (by decide) (by decide) (by decide)

/-- Claim C7: when the source directory does not exist, `git init` succeeds
and `git remote add` fails, `prepare_source` deletes the just-created tree
before surfacing the remote-add error, and the persisted state record is
untouched — so an absent state record still means a from-scratch
initialisation is safe. -/
theorem clone_atomic_on_remote_add_failure (env : KernelEnv) (st : KernelSt)
    (tr : List String) (h1 : st.src_dir_exists = false) (h2 : env.git_init_ok = true)
    (h3 : env.git_remote_add_ok = false) :
    ∃ st' tr', prepare_source env st tr =
        .error (st', tr', "ExternalToolError: git remote add") ∧
      st'.src_dir_exists = false ∧ st'.state_file = st.state_file := by
  obtain ⟨sd, sf⟩ := st
  simp only at h1
  subst h1
  refine ⟨⟨false, sf⟩, tr ++ ["git init", "git remote add"], ?_, rfl, rfl⟩
  simp [prepare_source, runTool, rmtree_src, h2, h3]

theorem clone_atomic_on_remote_add_failure_witness :
    ∃ st' tr', prepare_source ⟨true, false, true, true, true, [], true, true⟩
        ⟨false, .missing⟩ [] =
        .error (st', tr', "ExternalToolError: git remote add") ∧
      st'.src_dir_exists = false ∧ st'.state_file = StateFileContent.missing :=
  clone_atomic_on_remote_add_failure ⟨true, false, true, true, true, [], true, true⟩
    ⟨false, .missing⟩ [] rfl rfl rfl

/-- Claim C8 counterexample: for the root partition numbered 1 under UEFI,
the boot-script helper derives "/dev/vda1" while the installer mounts the
partition as "/dev/sda1" — the two call sites do not share one naming
convention. -/
theorem device_naming_differs_under_uefi :
    dev_partition_contains_root [(⟨PartitionFormat.EXT4, 20, "/"⟩, 1)] .UEFI =
      .ok "/dev/vda1" ∧
    installer_mount_device 1 = "/dev/sda1" ∧
    ("/dev/vda1" : String) ≠ "/dev/sda1" := by
  refine ⟨rfl, rfl, by decide⟩

/-- Claim C8 (amended): the device name derived for boot scripts agrees with
the installer's mount device exactly in BIOS mode; under UEFI the helper
uses the `vda` convention while the installer mounts via `sda`. -/
theorem device_naming_agrees_in_bios_mode :
    ∀ (l : List (PartitionFormatConfig × Nat)) (bm : QemuBootMode) (d : String),
      dev_partition_contains_root l bm = .ok d →
      ∃ c i, (c, i) ∈ l ∧ c.mount_point = "/" ∧
        ((bm = .BIOS ∧ d = installer_mount_device i) ∨
         (bm = .UEFI ∧ d = "/dev/vda" ++ toString i)) := by
  intro l
  induction l with
  | nil => intro bm d h; simp [dev_partition_contains_root] at h
  | cons e rest ih =>
    intro bm d h
    obtain ⟨e1, e2⟩ := e
    by_cases he : e1.mount_point = "/"
    · cases bm with
      | UEFI =>
        simp only [dev_partition_contains_root, he, if_true, Except.ok.injEq] at h
        exact ⟨e1, e2, List.mem_cons_self _ _, he, Or.inr ⟨rfl, h.symm⟩⟩
      | BIOS =>
        simp only [dev_partition_contains_root, he, if_true, Except.ok.injEq] at h
        exact ⟨e1, e2, List.mem_cons_self _ _, he, Or.inl ⟨rfl, h.symm⟩⟩
    · simp only [dev_partition_contains_root, he, if_false] at h
      obtain ⟨c, i, hm, hr, hd⟩ := ih bm d h
      exact ⟨c, i, List.mem_cons_of_mem _ hm, hr, hd⟩

theorem device_naming_agrees_in_bios_mode_witness :
    ∃ c i, (c, i) ∈ ([(⟨PartitionFormat.EXT4, 8, "/"⟩, 3)] :
        List (PartitionFormatConfig × Nat)) ∧ c.mount_point = "/" ∧
      ((QemuBootMode.BIOS = QemuBootMode.BIOS ∧
          ("/dev/sda3" : String) = installer_mount_device i) ∨
       (QemuBootMode.BIOS = QemuBootMode.UEFI ∧
          ("/dev/sda3" : String) = "/dev/vda" ++ toString i)) :=
  device_naming_agrees_in_bios_mode [(⟨PartitionFormat.EXT4, 8, "/"⟩, 3)] .BIOS
    "/dev/sda3" (by rfl)

/-- Claim C9: on any configuration accepted by `parse` — which enforces
exactly one root mount and exactly one FAT partition — both device helpers
find a matching entry, on the parsed order and equally on the re-sorted
cached list left behind by `partition_disk`; their "not found" branches are
unreachable. -/
theorem helpers_succeed_on_parsed_config (raw : List RawPartition)
    (l : List (PartitionFormatConfig × Nat)) (bm : QemuBootMode)
    (h : RootfsConfig.parse raw = .ok l) :
    (∃ d, dev_partition_contains_root l bm = .ok d) ∧
    (∃ d, mount_point_contains_efi l = .ok d) ∧
    (∃ d, dev_partition_contains_root (partition_disk_order l) bm = .ok d) ∧
    (∃ d, mount_point_contains_efi (partition_disk_order l) = .ok d) := by
  obtain ⟨hroot, hfat, _⟩ := parse_ok_mem_facts raw l h
  have hperm : List.Perm (partition_disk_order l) l := List.perm_insertionSort numLe l
  obtain ⟨c, n, hm, hr⟩ := hroot
  obtain ⟨c2, n2, hm2, hf2⟩ := hfat
  refine ⟨dev_root_ok_of_mem l bm ⟨c, n, hm, hr⟩,
    efi_ok_of_mem l ⟨c2, n2, hm2, hf2⟩,
    dev_root_ok_of_mem _ bm ⟨c, n, hperm.mem_iff.mpr hm, hr⟩,
    efi_ok_of_mem _ ⟨c2, n2, hperm.mem_iff.mpr hm2, hf2⟩⟩

theorem helpers_succeed_on_parsed_config_witness :
    ∃ d, dev_partition_contains_root
        [(⟨PartitionFormat.EXT4, 10, "/"⟩, 1), (⟨PartitionFormat.FAT, 1, "/boot"⟩, 2)]
        .BIOS = .ok d :=
  (helpers_succeed_on_parsed_config [⟨"ext4", 10, "/"⟩, ⟨"fat", 1, "/boot"⟩]
    [(⟨PartitionFormat.EXT4, 10, "/"⟩, 1), (⟨PartitionFormat.FAT, 1, "/boot"⟩, 2)]
    .BIOS (by rfl)).1

/-- Claim C10: writing any of the four build states with `set_state` and
immediately reading with `get_state` returns exactly the written state: each
enum value round-trips through the JSON record. -/
theorem state_record_roundtrip (s : KernelState) :
    KernelMachine.get_state (KernelMachine.set_state s) = .ok s := by
  cases s <;> rfl

theorem state_record_roundtrip_witness :
    KernelMachine.get_state (KernelMachine.set_state .SRC_BUILT) = .ok .SRC_BUILT :=
  state_record_roundtrip .SRC_BUILT
